import Mathlib

/-!
Verification of the jean-tui worktree/session shell integration.

This file gives a shallow embedding of the string-processing and
decision logic of the repository's shell wrappers (`BashZshWrapper` and
`FishWrapper` in the `install` package), of the configuration accessor
`GetAutoFetchInterval` (`config` package), and of the rc-file
installation logic (`install/install.go`), together with theorems about
session-name derivation, hand-off record parsing, session create/attach
decisions, and installation guards.

Strings are modelled as `List Char`; shell string operations are
translated operation by operation from the wrapper source.
-/

namespace JeanTui

/-- Character class of the wrappers' sanitization step.  Both wrappers
replace every character outside `[a-zA-Z0-9\-_]` with `-` (a bash
pattern substitution over the class, and fish
`string replace -ra` with the same class); in both shells the backslash
escapes the dash, so the kept characters are ASCII letters, digits,
`-` and `_`. -/
def isAllowedChar (c : Char) : Bool :=
  (decide ('a' ≤ c) && decide (c ≤ 'z')) ||
  (decide ('A' ≤ c) && decide (c ≤ 'Z')) ||
  (decide ('0' ≤ c) && decide (c ≤ '9')) ||
  c == '-' || c == '_'

/-- Per-character replacement step shared by both wrappers: every
character outside the allowed class becomes `-`. -/
def replaceDisallowed (s : List Char) : List Char :=
  s.map fun c => if isAllowedChar c then c else '-'

/-- The hardcoded session-name prefix `gcool-` of both wrappers
(`session_name="gcool-${...}"` and `set session_name "gcool-"(...)`). -/
def sessionBase : List Char := "gcool-".data

/-- Bash substitution of every `--` by `-`: one left-to-right pass
replacing each non-overlapping occurrence; scanning resumes after the
replacement, so a run of three dashes leaves a double dash behind. -/
def bashCollapseOnce : List Char → List Char
  | [] => []
  | [c] => [c]
  | c :: d :: rest =>
    if c == '-' && d == '-' then '-' :: bashCollapseOnce rest
    else c :: bashCollapseOnce (d :: rest)

/-- Bash `${session_name#-}`: removes a single leading dash when present. -/
def bashTrimOneLeading : List Char → List Char
  | [] => []
  | c :: rest => if c == '-' then rest else c :: rest

/-- Bash `${session_name%-}`: removes a single trailing dash when
present, modelled by trimming one leading dash of the reversal. -/
def bashTrimOneTrailing (s : List Char) : List Char :=
  (bashTrimOneLeading s.reverse).reverse

/-- Session-name derivation of `BashZshWrapper` (lines 354-363): prefix
`gcool-` the replaced branch, one `--` replacement pass, strip one
leading and one trailing dash, then append `-terminal` when the
`terminal_only` flag is the string `true`. -/
def bashSessionName (branch t_only : List Char) : List Char :=
  let s := sessionBase ++ replaceDisallowed branch
  let s := bashCollapseOnce s
  let s := bashTrimOneLeading s
  let s := bashTrimOneTrailing s
  if t_only = "true".data then s ++ "-terminal".data else s

/-- Fish `string replace -ra -- --+ -`: every maximal run of dashes
becomes a single dash.  Computed by merging a dash into the collapsed
tail when that tail already starts with a dash. -/
def collapseDashes : List Char → List Char
  | [] => []
  | c :: rest =>
    let t := collapseDashes rest
    if c == '-' && t.head? == some '-' then t else c :: t

/-- Drops every leading dash (left half of fish `string trim -c -`). -/
def trimLeadingDashes (s : List Char) : List Char :=
  s.dropWhile (· == '-')

/-- Drops every trailing dash (right half of fish `string trim -c -`). -/
def trimTrailingDashes (s : List Char) : List Char :=
  (s.reverse.dropWhile (· == '-')).reverse

/-- Fish `string trim -c -`: trims all dashes from both ends. -/
def trimDashes (s : List Char) : List Char :=
  trimTrailingDashes (trimLeadingDashes s)

/-- Session-name derivation of `FishWrapper` (lines 493-501): prefix
`gcool-` the replaced branch, collapse every dash run, trim dashes from
both ends, then append `-terminal` when `terminal_only` is `true`. -/
def fishSessionName (branch t_only : List Char) : List Char :=
  let s := sessionBase ++ replaceDisallowed branch
  let s := collapseDashes s
  let s := trimDashes s
  if t_only = "true".data then s ++ "-terminal".data else s

/-- Sanitization of a branch name exactly as the specification words it:
characters outside the class replaced by `-`, runs of `-` collapsed to
one, leading and trailing `-` trimmed. -/
def specSanitizedBranch (branch : List Char) : List Char :=
  trimDashes (collapseDashes (replaceDisallowed branch))

/-- Kind of a multiplexer session, per the specification's data model. -/
inductive SessionKind where
  | agent
  | terminal
deriving DecidableEq

/-- The wrappers encode the requested kind in the `terminal_only` string
flag: the string `true` requests a Terminal session, anything else an
Agent session. -/
def kindOfFlag (t_only : List Char) : SessionKind :=
  if t_only = "true".data then SessionKind.terminal else SessionKind.agent

/-- Session-name derivation exactly as the specification words it: the
sanitized branch, prefixed with the product session prefix and suffixed
with `-terminal` when the kind is Terminal. -/
def specDeriveName (branch : List Char) (kind : SessionKind) : List Char :=
  sessionBase ++ specSanitizedBranch branch ++
    (if kind = SessionKind.terminal then "-terminal".data else [])

/-- Decides that no two consecutive characters are both dashes. -/
def noDoubleDash : List Char → Bool
  | [] => true
  | [_] => true
  | c :: d :: rest => !(c == '-' && d == '-') && noDoubleDash (d :: rest)

/-- Decides that no three consecutive characters are all dashes. -/
def noTripleDash : List Char → Bool
  | c :: d :: e :: rest =>
    !(c == '-' && d == '-' && e == '-') && noTripleDash (d :: e :: rest)
  | _ => true

/-- Decides that every character is in the allowed class. -/
def allAllowed (s : List Char) : Bool :=
  s.all isAllowedChar

/-- Decides whether the second list starts with the first. -/
def startsWithSeq : List Char → List Char → Bool
  | [], _ => true
  | _ :: _, [] => false
  | p :: ps, c :: cs => p == c && startsWithSeq ps cs

/-- Decides whether `pat` occurs contiguously inside the second list
(Go `strings.Contains`). -/
def containsSeq (pat : List Char) : List Char → Bool
  | [] => startsWithSeq pat []
  | c :: rest => startsWithSeq pat (c :: rest) || containsSeq pat rest

/-- Index of the first occurrence of `pat` (Go `strings.Index`, with
`none` for Go's `-1`). -/
def findSeq (pat : List Char) : List Char → Option Nat
  | [] => if startsWithSeq pat [] then some 0 else none
  | c :: rest =>
    if startsWithSeq pat (c :: rest) then some 0
    else (findSeq pat rest).map (· + 1)

/-- Splits on `|`, keeping empty fields, as bash `IFS='|' read` and fish
`string split` both do.  The empty record yields one empty field. -/
def splitPipe : List Char → List (List Char)
  | [] => [[]]
  | c :: rest =>
    if c == '|' then [] :: splitPipe rest
    else
      match splitPipe rest with
      | [] => [[c]]
      | f :: fs => (c :: f) :: fs

/-- Hand-off record as read by `BashZshWrapper` (line 342): seven
variables bound by `IFS='|' read -r`. -/
structure BashRecord where
  worktree_path : List Char
  branch : List Char
  auto_claude : List Char
  terminal_only : List Char
  script_command : List Char
  claude_session_name : List Char
  agent_initialized : List Char
deriving DecidableEq

/-- Bash `IFS='|' read -r worktree_path branch auto_claude terminal_only
script_command claude_session_name is_claude_initialized`: the first six
variables receive fields one to six (empty when missing) and the last
variable receives the remainder of the line, separators included. -/
def bashParse (s : List Char) : BashRecord :=
  let parts := splitPipe s
  { worktree_path := parts.getD 0 []
    branch := parts.getD 1 []
    auto_claude := parts.getD 2 []
    terminal_only := parts.getD 3 []
    script_command := parts.getD 4 []
    claude_session_name := parts.getD 5 []
    agent_initialized := List.intercalate ['|'] (parts.drop 6) }

/-- Hand-off record as read by `FishWrapper`; the fish wrapper never
reads a script-command field. -/
structure FishRecord where
  worktree_path : List Char
  branch : List Char
  auto_claude : List Char
  terminal_only : List Char
  claude_session_name : List Char
  agent_initialized : List Char
deriving DecidableEq

/-- Fish parsing (lines 465-483): `string split`, a guard requiring at
least three parts, positional reads `$parts[1..3]`, and defaulted reads
`$parts[4]`, `$parts[6]` and `$parts[8]` — fish indexes from one, so
`$parts[8]` is the eighth field. -/
def fishParse (s : List Char) : Option FishRecord :=
  let parts := splitPipe s
  if parts.length ≥ 3 then
    some
      { worktree_path := parts.getD 0 []
        branch := parts.getD 1 []
        auto_claude := parts.getD 2 []
        terminal_only := if parts.length ≥ 4 then parts.getD 3 [] else "false".data
        claude_session_name := if parts.length ≥ 6 then parts.getD 5 [] else []
        agent_initialized := if parts.length ≥ 8 then parts.getD 7 [] else "false".data }
  else none

/-- External commands the wrappers issue when switching: the tmux
existence query, session creation (with optional start command and the
detached flag), the claude-not-found fallback creation that also sends
an explanatory message, attaching, and a plain directory change. -/
inductive TmuxAction where
  | hasSession (target : List Char)
  | newSession (name dir : List Char) (cmd : Option (List Char)) (detached : Bool)
  | newSessionNotice (name dir : List Char)
  | attachSession (name : List Char)
  | changeDir (dir : List Char)
deriving DecidableEq

/-- Start command chosen by `BashZshWrapper` for an agent session
(lines 400-406): `--continue` is added exactly when the
`is_claude_initialized` flag is the string `true`. -/
def bashClaudeCmd (agent_initialized : List Char) : List Char :=
  if agent_initialized = "true".data then
    "exec claude --continue --permission-mode plan".data
  else
    "exec claude --permission-mode plan".data

/-- Arguments chosen by `FishWrapper` (lines 529-532): `--continue` is
prepended exactly when `is_claude_initialized` is the string `true`. -/
def fishClaudeCmd (agent_initialized : List Char) : List Char :=
  if agent_initialized = "true".data then
    "claude --continue --permission-mode plan".data
  else
    "claude --permission-mode plan".data

/-- Session creation of `BashZshWrapper` (lines 386-418): terminal-only
sessions always get a plain shell; otherwise, with `auto_claude` set and
the claude binary available, the claude command is used (fresh or
resumed); without the binary a shell session with a notice is created;
without `auto_claude` a plain shell session.  Bash creates detached. -/
def bashCreateSession (name dir t_only auto_claude agent_initialized : List Char)
    (claudeAvailable : Bool) : List TmuxAction :=
  if t_only = "true".data then [TmuxAction.newSession name dir none true]
  else if auto_claude = "true".data then
    if claudeAvailable then
      [TmuxAction.newSession name dir (some (bashClaudeCmd agent_initialized)) true]
    else
      [TmuxAction.newSessionNotice name dir]
  else [TmuxAction.newSession name dir none true]

/-- Session creation of `FishWrapper` (lines 520-546): same decision
structure, but fish creates attached sessions and its claude-not-found
fallback is a plain shell session without a notice. -/
def fishCreateSession (name dir t_only auto_claude agent_initialized : List Char)
    (claudeAvailable : Bool) : List TmuxAction :=
  if t_only = "true".data then [TmuxAction.newSession name dir none false]
  else if auto_claude = "true".data then
    if claudeAvailable then
      [TmuxAction.newSession name dir (some (fishClaudeCmd agent_initialized)) false]
    else
      [TmuxAction.newSession name dir none false]
  else [TmuxAction.newSession name dir none false]

/-- Environment the bash wrapper's switch path observes: whether tmux is
installed, the surrounding tmux session if any (`$TMUX` plus
`tmux display-message`), the multiplexer's answer to the exact-match
existence query for the derived name, and claude availability. -/
structure SwitchEnv where
  tmuxAvailable : Bool
  insideTmuxSession : Option (List Char)
  sessionExists : Bool
  claudeAvailable : Bool
deriving DecidableEq

/-- Switch path of `BashZshWrapper` (lines 346-424) after a valid record
was parsed: without tmux it only changes directory; inside the target
session it only changes directory; otherwise it queries existence with
the exact-match `=` target and then either attaches or creates exactly
one session and attaches. -/
def bashSwitchFlow (env : SwitchEnv) (r : BashRecord) : List TmuxAction :=
  let name := bashSessionName r.branch r.terminal_only
  if env.tmuxAvailable then
    if env.insideTmuxSession = some name then [TmuxAction.changeDir r.worktree_path]
    else
      TmuxAction.hasSession ('=' :: name) ::
        (if env.sessionExists then [TmuxAction.attachSession name]
         else
           bashCreateSession name r.worktree_path r.terminal_only r.auto_claude
               r.agent_initialized env.claudeAvailable ++
             [TmuxAction.attachSession name])
  else [TmuxAction.changeDir r.worktree_path]

/-- Counts session creations in a wrapper trace. -/
def countNewSessions : List TmuxAction → Nat
  | [] => 0
  | TmuxAction.newSession _ _ _ _ :: rest => countNewSessions rest + 1
  | TmuxAction.newSessionNotice _ _ :: rest => countNewSessions rest + 1
  | _ :: rest => countNewSessions rest

/-- Per-repository configuration (`config.RepoConfig`). -/
structure RepoConfig where
  base_branch : List Char
  last_selected_branch : List Char
  editor : List Char
  auto_fetch_interval : Int
  theme : List Char
deriving DecidableEq

/-- Global configuration (`config.Config`); the Go string-keyed map is
modelled as an association list over repository paths. -/
structure Config where
  repositories : List (List Char × RepoConfig)

/-- Lookup of a repository's configuration (Go map access with its
`ok` flag as an `Option`). -/
def Config.find (cfg : Config) (repoPath : List Char) : Option RepoConfig :=
  (cfg.repositories.find? fun p => p.1 = repoPath).map Prod.snd

/-- `Manager.GetAutoFetchInterval` (config package, lines 160-169):
the stored interval when the repository is configured and the value is
positive, else the default of ten seconds. -/
def GetAutoFetchInterval (cfg : Config) (repoPath : List Char) : Int :=
  match cfg.find repoPath with
  | some repo => if repo.auto_fetch_interval > 0 then repo.auto_fetch_interval else 10
  | none => 10

/-- `branding.CLIName`, default build value. -/
def CLIName : List Char := "jean".data

/-- `branding.GetShellWrapperMarkerStart`: `# BEGIN <NAME> INTEGRATION`
with the CLI name upper-cased. -/
def GetShellWrapperMarkerStart : List Char :=
  "# BEGIN ".data ++ CLIName.map Char.toUpper ++ " INTEGRATION".data

/-- `branding.GetShellWrapperMarkerEnd`: `# END <NAME> INTEGRATION`. -/
def GetShellWrapperMarkerEnd : List Char :=
  "# END ".data ++ CLIName.map Char.toUpper ++ " INTEGRATION".data

/-- Modelled from the spec: `GetWrapperStartMarker` of the install
package is not under src/ (only its callers in install.go are); the
branding tests pin the shell-integration start marker to
`# BEGIN JEAN INTEGRATION`, so the getter is modelled as returning the
branding start marker. -/
def GetWrapperStartMarker : List Char := GetShellWrapperMarkerStart

/-- Modelled from the spec: `GetWrapperEndMarker` of the install package
is not under src/; modelled as returning the branding end marker. -/
def GetWrapperEndMarker : List Char := GetShellWrapperMarkerEnd

/-- Modelled from the spec: `ContainsWrapperMarker` of the install
package is not under src/; per its use in `IsInstalled` and the claim's
wording it holds exactly when the rc content contains the
shell-integration start marker. -/
def ContainsWrapperMarker (content : List Char) : Bool :=
  containsSeq GetWrapperStartMarker content

/-- `Detector.IsInstalled` (install.go lines 101-109): reading the rc
file and checking for the wrapper marker; a read failure (missing file)
counts as not installed. -/
def IsInstalled (rcContent : Option (List Char)) : Bool :=
  match rcContent with
  | none => false
  | some content => ContainsWrapperMarker content

/-- Failure cases of the installation operations. -/
inductive InstallError where
  | alreadyInstalled
  | notInstalled
  | markersNotFound
  | readFailed
deriving DecidableEq

/-- File-system writes the installation operations may perform. -/
inductive FileWrite where
  | backup (content : List Char)
  | rcWrite (content : List Char)
deriving DecidableEq

/-- One `strings.ReplaceAll(s, "\n\n\n", "\n\n")` pass, non-overlapping
left to right. -/
def replaceTriplesOnce : List Char → List Char
  | '\n' :: '\n' :: '\n' :: rest => '\n' :: '\n' :: replaceTriplesOnce rest
  | c :: rest => c :: replaceTriplesOnce rest
  | [] => []

/-- Fueled form of the cleanup loop
`for strings.Contains(newContent, "\n\n\n") { ... ReplaceAll ... }`. -/
def cleanupNewlinesFuel : Nat → List Char → List Char
  | 0, s => s
  | n + 1, s =>
    if containsSeq "\n\n\n".data s then cleanupNewlinesFuel n (replaceTriplesOnce s)
    else s

/-- The cleanup loop; the content length bounds the iteration count
because every pass that fires strictly shortens the content. -/
def cleanupNewlines (s : List Char) : List Char :=
  cleanupNewlinesFuel s.length s

/-- `Detector.Install` (install.go lines 112-160): refuse when already
installed, honour dry-run, back the rc file up when it exists, then
append the wrapper (with separating newlines) to the rc file.  The
result lists the writes performed; an error performs none. -/
def Install (rcContent : Option (List Char)) (wrapper : List Char) (dryRun : Bool) :
    Except InstallError (List FileWrite) :=
  if IsInstalled rcContent then Except.error InstallError.alreadyInstalled
  else if dryRun then Except.ok []
  else
    let backupWrites :=
      match rcContent with
      | some existing => [FileWrite.backup existing]
      | none => []
    let existing := rcContent.getD []
    let base :=
      if existing.getLast? = some '\n' || existing = [] then existing
      else existing ++ ['\n']
    Except.ok (backupWrites ++ [FileWrite.rcWrite (base ++ '\n' :: (wrapper ++ ['\n']))])

/-- `Detector.Update` (install.go lines 163-212): refuse when not
installed, honour dry-run, then locate both markers; if either is
missing, fail before writing; otherwise splice the fresh wrapper in
place of the old block and rewrite the rc file. -/
def Update (rcContent : Option (List Char)) (wrapper : List Char) (dryRun : Bool) :
    Except InstallError (List FileWrite) :=
  if !IsInstalled rcContent then Except.error InstallError.notInstalled
  else if dryRun then Except.ok []
  else
    match rcContent with
    | none => Except.error InstallError.readFailed
    | some content =>
      match findSeq GetWrapperStartMarker content, findSeq GetWrapperEndMarker content with
      | some startIdx, some endIdx =>
        Except.ok
          [FileWrite.rcWrite
            (cleanupNewlines
              (content.take startIdx ++ wrapper ++ '\n' ::
                content.drop (endIdx + GetWrapperEndMarker.length)))]
      | _, _ => Except.error InstallError.markersNotFound

/-- `Detector.Remove` (install.go lines 215-260): refuse when not
installed, honour dry-run, then locate both markers; if either is
missing, fail before writing; otherwise delete the block and rewrite
the rc file. -/
def Remove (rcContent : Option (List Char)) (dryRun : Bool) :
    Except InstallError (List FileWrite) :=
  if !IsInstalled rcContent then Except.error InstallError.notInstalled
  else if dryRun then Except.ok []
  else
    match rcContent with
    | none => Except.error InstallError.readFailed
    | some content =>
      match findSeq GetWrapperStartMarker content, findSeq GetWrapperEndMarker content with
      | some startIdx, some endIdx =>
        Except.ok
          [FileWrite.rcWrite
            (cleanupNewlines
              (content.take startIdx ++
                content.drop (endIdx + GetWrapperEndMarker.length)))]
      | _, _ => Except.error InstallError.markersNotFound

/-- Relation form of the double-dash check: two adjacent characters are
not both dashes. -/
def NotDD (a b : Char) : Prop := ¬(a = '-' ∧ b = '-')

/-- Proposition form of `noDoubleDash`, as a chain over adjacent pairs. -/
def NoDD (s : List Char) : Prop := List.Chain' NotDD s

/-! ### General helper lemmas -/

/-- Induction principle stepping through a list two elements at a time. -/
theorem twoStepInduction {p : List Char → Prop} (h0 : p []) (h1 : ∀ c, p [c])
    (h2 : ∀ c d rest, p rest → p (d :: rest) → p (c :: d :: rest)) :
    ∀ s, p s
  | [] => h0
  | [c] => h1 c
  | c :: d :: rest =>
    h2 c d rest (twoStepInduction h0 h1 h2 rest) (twoStepInduction h0 h1 h2 (d :: rest))

/-- The containment test succeeds exactly when the index search does. -/
theorem containsSeq_eq_isSome (pat : List Char) :
    ∀ s, containsSeq pat s = (findSeq pat s).isSome := by
  intro s
  induction s with
  | nil => cases h : startsWithSeq pat [] <;> simp [containsSeq, findSeq, h]
  | cons c rest ih =>
    cases h : startsWithSeq pat (c :: rest) <;>
      simp [containsSeq, findSeq, h, ih]

/-! ### Theorems for the install guards -/

/-- C9: for every rc-file content that already contains the
shell-integration start marker, `Detector.Install` returns the
already-installed error before performing any write, so installing
twice never duplicates the wrapper block. -/
theorem c9_install_refuses_when_marker_present (content wrapper : List Char) (dryRun : Bool)
    (h : containsSeq GetWrapperStartMarker content = true) :
    Install (some content) wrapper dryRun = Except.error InstallError.alreadyInstalled := by
  simp [Install, IsInstalled, ContainsWrapperMarker, h]

/-- Witness for C9 at a concrete rc content consisting of the marker. -/
theorem c9_witness :
    containsSeq GetWrapperStartMarker "# BEGIN JEAN INTEGRATION".data = true ∧
    Install (some "# BEGIN JEAN INTEGRATION".data) [] false =
      Except.error InstallError.alreadyInstalled :=
  ⟨by decide, c9_install_refuses_when_marker_present _ _ _ (by decide)⟩

/-- C10: when either integration marker is absent from the rc content,
`Detector.Update` and `Detector.Remove` both fail — either at the
installed-check or at the marker lookup — and in every failure case the
operation performs no write, leaving the rc file unchanged. -/
theorem c10_update_remove_marker_guard (content wrapper : List Char)
    (h : findSeq GetWrapperStartMarker content = none ∨
         findSeq GetWrapperEndMarker content = none) :
    (∃ e, Update (some content) wrapper false = Except.error e) ∧
    (∃ e, Remove (some content) false = Except.error e) := by
  by_cases hc : ContainsWrapperMarker content = true
  · have hsome : (findSeq GetWrapperStartMarker content).isSome := by
      rw [← containsSeq_eq_isSome]
      exact hc
    obtain ⟨k, hk⟩ := Option.isSome_iff_exists.mp hsome
    have hEnd : findSeq GetWrapperEndMarker content = none := by
      rcases h with h | h
      · rw [h] at hk
        exact absurd hk (by simp)
      · exact h
    constructor
    · exact ⟨InstallError.markersNotFound, by simp [Update, IsInstalled, hc, hk, hEnd]⟩
    · exact ⟨InstallError.markersNotFound, by simp [Remove, IsInstalled, hc, hk, hEnd]⟩
  · constructor
    · exact ⟨InstallError.notInstalled, by simp [Update, IsInstalled, hc]⟩
    · exact ⟨InstallError.notInstalled, by simp [Remove, IsInstalled, hc]⟩

/-- Witness for C10 at a concrete rc content with no markers. -/
theorem c10_witness :
    (∃ e, Update (some "hello".data) [] false = Except.error e) ∧
    (∃ e, Remove (some "hello".data) false = Except.error e) :=
  c10_update_remove_marker_guard "hello".data [] (Or.inl (by decide))

/-! ### Theorems for the hand-off record format -/

/-- C3: the hand-off record format puts `agent_initialized` in the
seventh field and the bash consumer reads it there, but the fish
consumer reads `$parts[8]`, the eighth field; on a full seven-field
record with `agent_initialized = true` the fish wrapper therefore falls
back to its `false` default. -/
theorem c3_fish_reads_eighth_field :
    (splitPipe "/w|feat|true|false||gcool-feat|true".data).length = 7 ∧
    (splitPipe "/w|feat|true|false||gcool-feat|true".data).getD 6 [] = "true".data ∧
    (bashParse "/w|feat|true|false||gcool-feat|true".data).agent_initialized = "true".data ∧
    (fishParse "/w|feat|true|false||gcool-feat|true".data).map FishRecord.agent_initialized =
      some "false".data := by
  decide

/-! ### Theorems for session creation -/

/-- C8: with the `terminal_only` flag set, both wrappers create the new
session with no start command (an interactive shell), for every value of
the `auto_claude` and `agent_initialized` flags and independently of
claude availability. -/
theorem c8_terminal_session_is_shell (name dir auto_claude agent_initialized : List Char)
    (claudeAvailable : Bool) :
    bashCreateSession name dir "true".data auto_claude agent_initialized claudeAvailable =
      [TmuxAction.newSession name dir none true] ∧
    fishCreateSession name dir "true".data auto_claude agent_initialized claudeAvailable =
      [TmuxAction.newSession name dir none false] := by
  constructor <;> simp [bashCreateSession, fishCreateSession]

/-- C4: when the switch targets the Agent kind (`terminal_only` not set,
`auto_claude` set, claude available) and the session must be created,
both wrappers start claude with a command that carries `--continue`
exactly when `agent_initialized` is the string `true`, and start it
fresh otherwise. -/
theorem c4_resume_iff_initialized (name dir t_only auto_claude agent_initialized : List Char)
    (hT : t_only ≠ "true".data) (hA : auto_claude = "true".data) :
    bashCreateSession name dir t_only auto_claude agent_initialized true =
      [TmuxAction.newSession name dir (some (bashClaudeCmd agent_initialized)) true] ∧
    fishCreateSession name dir t_only auto_claude agent_initialized true =
      [TmuxAction.newSession name dir (some (fishClaudeCmd agent_initialized)) false] ∧
    (containsSeq "--continue".data (bashClaudeCmd agent_initialized) = true ↔
      agent_initialized = "true".data) ∧
    (containsSeq "--continue".data (fishClaudeCmd agent_initialized) = true ↔
      agent_initialized = "true".data) := by
  refine ⟨by simp [bashCreateSession, hT, hA], by simp [fishCreateSession, hT, hA], ?_, ?_⟩
  · by_cases hi : agent_initialized = "true".data
    · refine ⟨fun _ => hi, fun _ => ?_⟩
      rw [bashClaudeCmd, if_pos hi]
      decide
    · refine ⟨fun hcontra => ?_, fun hcontra => absurd hcontra hi⟩
      rw [bashClaudeCmd, if_neg hi] at hcontra
      exact absurd hcontra (by decide)
  · by_cases hi : agent_initialized = "true".data
    · refine ⟨fun _ => hi, fun _ => ?_⟩
      rw [fishClaudeCmd, if_pos hi]
      decide
    · refine ⟨fun hcontra => ?_, fun hcontra => absurd hcontra hi⟩
      rw [fishClaudeCmd, if_neg hi] at hcontra
      exact absurd hcontra (by decide)

/-- Witness for C4 with a non-terminal switch, both flag values. -/
theorem c4_witness :
    bashCreateSession "gcool-feat".data "/w".data "false".data "true".data "true".data true =
      [TmuxAction.newSession "gcool-feat".data "/w".data
        (some (bashClaudeCmd "true".data)) true] ∧
    (containsSeq "--continue".data (bashClaudeCmd "true".data) = true ↔
      "true".data = "true".data) :=
  ⟨(c4_resume_iff_initialized _ _ _ _ _ (by decide) (by decide)).1,
   (c4_resume_iff_initialized "gcool-feat".data "/w".data "false".data "true".data "true".data
      (by decide) (by decide)).2.2.1⟩

/-! ### Theorems for the switch flow -/

/-- The bash wrapper's creation step always issues exactly one
new-session command, targeting the derived name and the worktree. -/
theorem bashCreateSession_singleton (name dir t a i : List Char) (avail : Bool) :
    (∃ cmd det, bashCreateSession name dir t a i avail =
      [TmuxAction.newSession name dir cmd det]) ∨
    bashCreateSession name dir t a i avail = [TmuxAction.newSessionNotice name dir] := by
  unfold bashCreateSession
  split_ifs
  · exact Or.inl ⟨none, true, rfl⟩
  · exact Or.inl ⟨some (bashClaudeCmd i), true, rfl⟩
  · exact Or.inr rfl
  · exact Or.inl ⟨none, true, rfl⟩

/-- C5: whenever the bash wrapper actually drives a tmux switch (tmux
available and not already inside the target session), the first command
issued is the exact-match existence query (`=`-prefixed target) on the
derived name; if the session exists the trace attaches and creates no
session, otherwise it creates exactly one session — in the worktree
directory, under the derived name — and then attaches. -/
theorem c5_switch_checks_then_creates_or_attaches (env : SwitchEnv) (r : BashRecord)
    (hT : env.tmuxAvailable = true)
    (hS : env.insideTmuxSession ≠ some (bashSessionName r.branch r.terminal_only)) :
    (bashSwitchFlow env r).head? =
      some (TmuxAction.hasSession ('=' :: bashSessionName r.branch r.terminal_only)) ∧
    countNewSessions (bashSwitchFlow env r) = (if env.sessionExists then 0 else 1) ∧
    (bashSwitchFlow env r).getLast? =
      some (TmuxAction.attachSession (bashSessionName r.branch r.terminal_only)) ∧
    (∀ n dir cmd det, TmuxAction.newSession n dir cmd det ∈ bashSwitchFlow env r →
      n = bashSessionName r.branch r.terminal_only ∧ dir = r.worktree_path) ∧
    (∀ n dir, TmuxAction.newSessionNotice n dir ∈ bashSwitchFlow env r →
      n = bashSessionName r.branch r.terminal_only ∧ dir = r.worktree_path) := by
  have hflow : bashSwitchFlow env r =
      TmuxAction.hasSession ('=' :: bashSessionName r.branch r.terminal_only) ::
        (if env.sessionExists then
          [TmuxAction.attachSession (bashSessionName r.branch r.terminal_only)]
         else
          bashCreateSession (bashSessionName r.branch r.terminal_only) r.worktree_path
              r.terminal_only r.auto_claude r.agent_initialized env.claudeAvailable ++
            [TmuxAction.attachSession (bashSessionName r.branch r.terminal_only)]) := by
    rw [bashSwitchFlow]
    simp only [hT, if_true]
    rw [if_neg hS]
  rcases bashCreateSession_singleton (bashSessionName r.branch r.terminal_only)
      r.worktree_path r.terminal_only r.auto_claude r.agent_initialized
      env.claudeAvailable with ⟨cmd, det, hcr⟩ | hcr <;>
    cases hE : env.sessionExists
  all_goals (simp [hflow, hE, hcr, countNewSessions]; try tauto)

/-- Witness for C5: a concrete switch with tmux available, outside any
tmux session, and no existing target session creates exactly one. -/
theorem c5_witness :
    (some "other".data : Option (List Char)) ≠
      some (bashSessionName "feat".data "false".data) ∧
    countNewSessions
      (bashSwitchFlow ⟨true, some "other".data, false, true⟩
        ⟨"/w".data, "feat".data, "true".data, "false".data, [],
          "gcool-feat".data, "true".data⟩) = 1 :=
  ⟨by decide,
   (c5_switch_checks_then_creates_or_attaches ⟨true, some "other".data, false, true⟩
      ⟨"/w".data, "feat".data, "true".data, "false".data, [],
        "gcool-feat".data, "true".data⟩ rfl (by decide)).2.1⟩

/-! ### Lemmas about the sanitization primitives -/

/-- Character replacement only produces allowed characters. -/
theorem allAllowed_replaceDisallowed (s : List Char) :
    allAllowed (replaceDisallowed s) = true := by
  rw [allAllowed, List.all_eq_true]
  intro x hx
  rw [replaceDisallowed] at hx
  obtain ⟨c, -, rfl⟩ := List.mem_map.mp hx
  by_cases h : isAllowedChar c = true
  · rw [if_pos h]
    exact h
  · rw [if_neg h]
    decide

/-- Collapsing dash runs preserves the head character. -/
theorem collapseDashes_head? (s : List Char) :
    (collapseDashes s).head? = s.head? := by
  induction s with
  | nil => rfl
  | cons c rest ih =>
    rw [collapseDashes]
    by_cases h : (c == '-' && (collapseDashes rest).head? == some '-') = true
    · rw [if_pos h]
      have h1 := (Bool.and_eq_true _ _).mp h
      have hc : c = '-' := by simpa using h1.1
      have hh : (collapseDashes rest).head? = some '-' := by simpa using h1.2
      rw [hh, hc]
      simp
    · rw [if_neg h]
      rfl

/-- The collapsed list never contains two adjacent dashes. -/
theorem noDD_collapseDashes (s : List Char) : NoDD (collapseDashes s) := by
  induction s with
  | nil => exact List.chain'_nil
  | cons c rest ih =>
    rw [collapseDashes]
    by_cases h : (c == '-' && (collapseDashes rest).head? == some '-') = true
    · rw [if_pos h]
      exact ih
    · rw [if_neg h]
      refine List.chain'_cons'.mpr ⟨?_, ih⟩
      intro y hy
      intro ⟨hc, hyd⟩
      apply h
      simp only [Bool.and_eq_true, beq_iff_eq]
      exact ⟨hc, by rw [hy, hyd]⟩

/-- After dropping leading dashes the head is not a dash. -/
theorem head?_dropWhileDash (s : List Char) :
    (s.dropWhile (· == '-')).head? ≠ some '-' := by
  induction s with
  | nil => simp
  | cons c rest ih =>
    rw [List.dropWhile_cons]
    by_cases h : (c == '-') = true
    · rw [if_pos h]
      exact ih
    · rw [if_neg h]
      simp only [List.head?_cons, ne_eq, Option.some.injEq]
      intro hc
      exact h (by simp [hc])

/-- Dropping a prefix by a predicate preserves chains. -/
theorem NoDD.dropWhile {s : List Char} (p : Char → Bool) (h : NoDD s) :
    NoDD (s.dropWhile p) := by
  induction s with
  | nil => exact h
  | cons c rest ih =>
    rw [List.dropWhile_cons]
    by_cases hp : (p c) = true
    · rw [if_pos hp]
      exact ih h.tail
    · rw [if_neg hp]
      exact h

/-- The double-dash chain is preserved by reversal. -/
theorem NoDD.reverse {s : List Char} (h : NoDD s) : NoDD s.reverse := by
  rw [NoDD, List.chain'_reverse]
  refine h.imp fun a b hab => ?_
  intro ⟨h1, h2⟩
  exact hab ⟨h2, h1⟩

/-- The boolean adjacency check agrees with the chain proposition. -/
theorem noDoubleDash_iff (s : List Char) : noDoubleDash s = true ↔ NoDD s := by
  induction s using twoStepInduction with
  | h0 => simp [noDoubleDash, NoDD]
  | h1 c => simp [noDoubleDash, NoDD]
  | h2 c d rest ih1 ih2 =>
    rw [noDoubleDash, NoDD, List.chain'_cons, Bool.and_eq_true, ← NoDD, ← ih2]
    constructor
    · intro ⟨hb, hrest⟩
      refine ⟨fun ⟨h1, h2⟩ => ?_, hrest⟩
      rw [h1, h2] at hb
      simp at hb
    · intro ⟨hb, hrest⟩
      refine ⟨?_, hrest⟩
      by_cases h1 : c = '-' <;> by_cases h2 : d = '-' <;> simp [h1, h2] at hb ⊢
      exact hb ⟨rfl, rfl⟩

/-- Trimming trailing dashes distributes over an append whose right part
keeps at least one character. -/
theorem trimTrailing_append (a b : List Char) (hb : trimTrailingDashes b ≠ []) :
    trimTrailingDashes (a ++ b) = a ++ trimTrailingDashes b := by
  have hb' : (b.reverse.dropWhile (· == '-')) ≠ [] := by
    intro hnil
    apply hb
    rw [trimTrailingDashes, hnil]
    rfl
  rw [trimTrailingDashes, List.reverse_append, List.dropWhile_append]
  rw [if_neg (by simpa [List.isEmpty_iff] using hb')]
  rw [List.reverse_append, List.reverse_reverse, trimTrailingDashes]

/-- Trimming trailing dashes keeps a non-dash head. -/
theorem trimTrailing_cons_ne (c : Char) (t : List Char) (hc : c ≠ '-') :
    trimTrailingDashes (c :: t) = c :: trimTrailingDashes t := by
  have hcb : (c == '-') = false := by simpa using hc
  rw [trimTrailingDashes, List.reverse_cons, List.dropWhile_append]
  by_cases h : (t.reverse.dropWhile (· == '-')).isEmpty = true
  · rw [if_pos h]
    have ht : trimTrailingDashes t = [] := by
      rw [trimTrailingDashes, List.isEmpty_iff.mp h, List.reverse_nil]
    rw [ht]
    simp [List.dropWhile_cons, hcb]
  · rw [if_neg h, List.reverse_append, trimTrailingDashes]
    simp

/-- The last character after trimming trailing dashes is not a dash. -/
theorem getLast?_trimTrailing (s : List Char) :
    (trimTrailingDashes s).getLast? ≠ some '-' := by
  rw [trimTrailingDashes, List.getLast?_reverse]
  exact head?_dropWhileDash s.reverse

/-- Dropping leading dashes is the identity when the head is no dash. -/
theorem trimLeading_eq_self (s : List Char) (h : s.head? ≠ some '-') :
    trimLeadingDashes s = s := by
  cases s with
  | nil => rfl
  | cons c t =>
    have hcb : (c == '-') = false := by
      simp only [List.head?_cons, ne_eq, Option.some.injEq] at h
      simpa using h
    rw [trimLeadingDashes, List.dropWhile_cons]
    simp [hcb]

/-- Trimming trailing dashes is the identity when the last character is
no dash. -/
theorem trimTrailing_eq_self (s : List Char) (h : s.getLast? ≠ some '-') :
    trimTrailingDashes s = s := by
  show (trimLeadingDashes s.reverse).reverse = s
  rw [trimLeading_eq_self s.reverse (by rwa [List.head?_reverse]), List.reverse_reverse]

/-- Collapsing dash runs does not introduce new characters. -/
theorem allAllowed_collapseDashes (s : List Char) (h : allAllowed s = true) :
    allAllowed (collapseDashes s) = true := by
  induction s with
  | nil => exact h
  | cons c rest ih =>
    rw [allAllowed, List.all_cons, Bool.and_eq_true] at h
    have ih' := ih h.2
    rw [collapseDashes]
    by_cases hc : (c == '-' && (collapseDashes rest).head? == some '-') = true
    · rw [if_pos hc]
      exact ih'
    · rw [if_neg hc, allAllowed, List.all_cons, Bool.and_eq_true]
      exact ⟨h.1, ih'⟩

/-- Every sublist of an all-allowed list is all-allowed. -/
theorem allAllowed_sublist {t s : List Char} (hs : List.Sublist t s)
    (h : allAllowed s = true) : allAllowed t = true := by
  rw [allAllowed, List.all_eq_true] at h ⊢
  exact fun x hx => h x (hs.mem hx)

/-- Reversal preserves the allowed-character check. -/
theorem allAllowed_reverse (s : List Char) :
    allAllowed s.reverse = allAllowed s := by
  rw [allAllowed, allAllowed, List.all_reverse]

/-- Both trims preserve the allowed-character check. -/
theorem allAllowed_trims (s : List Char) (h : allAllowed s = true) :
    allAllowed (trimLeadingDashes s) = true ∧ allAllowed (trimTrailingDashes s) = true := by
  refine ⟨allAllowed_sublist (List.dropWhile_sublist _) h, ?_⟩
  rw [trimTrailingDashes, allAllowed_reverse]
  exact allAllowed_sublist (List.dropWhile_sublist _) (by rwa [allAllowed_reverse])

/-- Replacement is the identity on all-allowed content. -/
theorem replaceDisallowed_eq_self (s : List Char) (h : allAllowed s = true) :
    replaceDisallowed s = s := by
  rw [allAllowed, List.all_eq_true] at h
  induction s with
  | nil => rfl
  | cons c rest ih =>
    rw [replaceDisallowed, List.map_cons, if_pos (h c (List.mem_cons_self c rest))]
    have hrest := ih fun x hx => h x (List.mem_cons_of_mem c hx)
    rw [replaceDisallowed] at hrest
    rw [hrest]

/-- Collapsing distributes over a dash-free left part. -/
theorem collapseDashes_append_nodash (a x : List Char) (ha : ∀ c ∈ a, c ≠ '-') :
    collapseDashes (a ++ x) = a ++ collapseDashes x := by
  induction a with
  | nil => rfl
  | cons c a' ih =>
    have hc : (c == '-') = false := by simpa using ha c (List.mem_cons_self c a')
    rw [List.cons_append, collapseDashes, ih fun d hd => ha d (List.mem_cons_of_mem c hd)]
    simp [hc]

/-- Collapsing a dash onto a tail keeps one dash and strips the dashes
the collapsed tail begins with. -/
theorem collapseDashes_dash_cons (r : List Char) :
    collapseDashes ('-' :: r) = '-' :: trimLeadingDashes (collapseDashes r) := by
  rw [collapseDashes]
  cases ht : collapseDashes r with
  | nil => simp [trimLeadingDashes]
  | cons y t2 =>
    by_cases hy : y = '-'
    · subst hy
      rw [if_pos (by simp)]
      have hnd := noDD_collapseDashes r
      rw [ht] at hnd
      have hhead := (List.chain'_cons'.mp hnd).1
      have ht2 : t2.head? ≠ some '-' := fun hh => hhead '-' hh ⟨rfl, rfl⟩
      rw [trimLeadingDashes, List.dropWhile_cons, if_pos (by simp)]
      exact congrArg (fun z => '-' :: z) (trimLeading_eq_self t2 ht2).symm
    · rw [if_neg (by simp [hy])]
      rw [trimLeading_eq_self (y :: t2) (by simpa using hy)]

/-- Collapsing is the identity on chains without double dashes. -/
theorem collapseDashes_eq_self (s : List Char) (h : NoDD s) : collapseDashes s = s := by
  induction s with
  | nil => rfl
  | cons c rest ih =>
    have hhead := (List.chain'_cons'.mp h).1
    have hcond : (c == '-' && rest.head? == some '-') = false := by
      by_contra hb
      rw [Bool.not_eq_false, Bool.and_eq_true] at hb
      have hc : c = '-' := by simpa using hb.1
      have hr : rest.head? = some '-' := by simpa using hb.2
      exact hhead '-' hr ⟨hc, rfl⟩
    rw [collapseDashes, ih h.tail, hcond]
    simp

/-- Trimming trailing dashes preserves the double-dash chain. -/
theorem NoDD.trimTrailing {s : List Char} (h : NoDD s) :
    NoDD (trimTrailingDashes s) :=
  (NoDD.dropWhile _ h.reverse).reverse

/-- One bash pass keeps a leading non-dash character. -/
theorem bashCollapseOnce_cons_ne (c : Char) (t : List Char) (hc : c ≠ '-') :
    bashCollapseOnce (c :: t) = c :: bashCollapseOnce t := by
  cases t with
  | nil => rfl
  | cons d rest =>
    rw [bashCollapseOnce, if_neg (by simp [hc])]

/-- Dropping the first element of a triple-dash-free list stays
triple-dash-free. -/
theorem noTripleDash_tail (c : Char) (t : List Char) (h : noTripleDash (c :: t) = true) :
    noTripleDash t = true := by
  match t with
  | [] => rfl
  | [d] => rfl
  | d :: e :: r =>
    rw [noTripleDash, Bool.and_eq_true] at h
    exact h.2

/-- Under no triple dash, the single bash replacement pass coincides
with full dash-run collapsing. -/
theorem bashCollapseOnce_eq_collapseDashes :
    ∀ s, noTripleDash s = true → bashCollapseOnce s = collapseDashes s := by
  refine twoStepInduction (fun _ => rfl) (fun c _ => ?_) (fun c d rest ih1 ih2 h => ?_)
  · simp [bashCollapseOnce, collapseDashes]
  · by_cases hcd : (c == '-' && d == '-') = true
    · rw [Bool.and_eq_true] at hcd
      have hc : c = '-' := by simpa using hcd.1
      have hd : d = '-' := by simpa using hcd.2
      subst hc
      subst hd
      cases rest with
      | nil => decide
      | cons e r2 =>
        have he : (e == '-') = false := by
          rw [noTripleDash] at h
          rcases Bool.and_eq_true _ _ |>.mp h with ⟨h1, -⟩
          simpa using h1
        have hrest : noTripleDash (e :: r2) = true :=
          noTripleDash_tail _ _ (noTripleDash_tail _ _ h)
        have hinner : collapseDashes ('-' :: e :: r2) = '-' :: collapseDashes (e :: r2) := by
          rw [collapseDashes]
          rw [if_neg (by rw [collapseDashes_head?]; simp [he])]
        have houter : collapseDashes ('-' :: '-' :: e :: r2) = '-' :: collapseDashes (e :: r2) := by
          rw [collapseDashes, hinner, if_pos (by simp)]
        rw [bashCollapseOnce, if_pos (by simp), ih1 hrest, houter]
    · have htl : noTripleDash (d :: rest) = true := noTripleDash_tail _ _ h
      have hcondf : (c == '-' && (collapseDashes (d :: rest)).head? == some '-') = false := by
        rw [collapseDashes_head?, List.head?_cons, Bool.eq_false_iff]
        intro hb
        apply hcd
        rw [Bool.and_eq_true] at hb ⊢
        refine ⟨hb.1, ?_⟩
        simpa using hb.2
      have hR : collapseDashes (c :: d :: rest) = c :: collapseDashes (d :: rest) := by
        rw [collapseDashes, hcondf]
        simp
      rw [bashCollapseOnce, if_neg hcd, ih2 htl, hR]

/-- With no leading double dash, removing one leading dash removes them
all. -/
theorem bashTrimOneLeading_eq (s : List Char) (h : NoDD s) :
    bashTrimOneLeading s = trimLeadingDashes s := by
  cases s with
  | nil => rfl
  | cons c t =>
    rw [bashTrimOneLeading, trimLeadingDashes, List.dropWhile_cons]
    by_cases hc : (c == '-') = true
    · rw [if_pos hc, if_pos hc]
      have hhead := (List.chain'_cons'.mp h).1
      have ht : t.head? ≠ some '-' := fun hh => hhead '-' hh ⟨by simpa using hc, rfl⟩
      exact (trimLeading_eq_self t ht).symm
    · rw [if_neg hc, if_neg hc]

/-- With no double dash anywhere, removing one trailing dash removes
them all. -/
theorem bashTrimOneTrailing_eq (s : List Char) (h : NoDD s) :
    bashTrimOneTrailing s = trimTrailingDashes s := by
  rw [bashTrimOneTrailing, trimTrailingDashes, bashTrimOneLeading_eq s.reverse h.reverse]
  rfl

/-- A head surviving in an append. -/
theorem head?_append_of_some {x : List Char} (y : List Char) {c : Char}
    (h : x.head? = some c) : (x ++ y).head? = some c := by
  cases x with
  | nil => exact absurd h (by simp)
  | cons a t =>
    rw [List.head?_cons, Option.some.injEq] at h
    rw [List.cons_append, List.head?_cons, h]

/-- Unfolded form of the bash derivation. -/
theorem bashSessionName_eq (branch t_only : List Char) :
    bashSessionName branch t_only =
      (if t_only = "true".data then
        bashTrimOneTrailing (bashTrimOneLeading
          (bashCollapseOnce (sessionBase ++ replaceDisallowed branch))) ++ "-terminal".data
       else
        bashTrimOneTrailing (bashTrimOneLeading
          (bashCollapseOnce (sessionBase ++ replaceDisallowed branch)))) := rfl

/-- Unfolded form of the fish derivation. -/
theorem fishSessionName_eq (branch t_only : List Char) :
    fishSessionName branch t_only =
      (if t_only = "true".data then
        trimDashes (collapseDashes (sessionBase ++ replaceDisallowed branch)) ++ "-terminal".data
       else
        trimDashes (collapseDashes (sessionBase ++ replaceDisallowed branch))) := rfl

/-- Fish collapsing of the prefixed replaced branch. -/
theorem collapse_sessionBase (r : List Char) :
    collapseDashes (sessionBase ++ r) =
      "gcool".data ++ '-' :: trimLeadingDashes (collapseDashes r) := by
  have hsplit : sessionBase ++ r = "gcool".data ++ ('-' :: r) := rfl
  rw [hsplit, collapseDashes_append_nodash _ _ (by decide), collapseDashes_dash_cons]

/-- When the sanitized branch is nonempty, the fish trim of the
collapsed prefixed name is exactly the prefix followed by the sanitized
branch. -/
theorem trimDashes_sessionBase (branch : List Char) (h : specSanitizedBranch branch ≠ []) :
    trimDashes (collapseDashes (sessionBase ++ replaceDisallowed branch)) =
      sessionBase ++ specSanitizedBranch branch := by
  have h' : trimTrailingDashes (trimLeadingDashes
      (collapseDashes (replaceDisallowed branch))) ≠ [] := by
    rw [specSanitizedBranch, trimDashes] at h
    exact h
  rw [collapse_sessionBase, trimDashes]
  have hg : (("gcool".data : List Char) ++ '-' ::
      trimLeadingDashes (collapseDashes (replaceDisallowed branch))).head? = some 'g' :=
    head?_append_of_some _ (by decide)
  rw [trimLeading_eq_self _ (by rw [hg]; decide)]
  have h1 : trimTrailingDashes ('-' ::
      trimLeadingDashes (collapseDashes (replaceDisallowed branch))) =
      '-' :: trimTrailingDashes (trimLeadingDashes
        (collapseDashes (replaceDisallowed branch))) := by
    simpa using trimTrailing_append ['-'] _ h'
  have h2 := trimTrailing_append "gcool".data
    ('-' :: trimLeadingDashes (collapseDashes (replaceDisallowed branch)))
    (by rw [h1]; simp)
  rw [h2, h1, specSanitizedBranch, trimDashes,
    show sessionBase = "gcool".data ++ ['-'] from by decide, List.append_assoc]
  rfl

/-- The fish-derived name before suffixing always starts with the
prefix letter. -/
theorem fish_base_head (branch : List Char) :
    (trimDashes (collapseDashes (sessionBase ++ replaceDisallowed branch))).head? =
      some 'g' := by
  rw [collapse_sessionBase, trimDashes]
  have hg : (("gcool".data : List Char) ++ '-' ::
      trimLeadingDashes (collapseDashes (replaceDisallowed branch))).head? = some 'g' :=
    head?_append_of_some _ (by decide)
  rw [trimLeading_eq_self _ (by rw [hg]; decide)]
  rw [show (("gcool".data : List Char) ++ '-' ::
      trimLeadingDashes (collapseDashes (replaceDisallowed branch))) =
      'g' :: ("cool".data ++ '-' ::
        trimLeadingDashes (collapseDashes (replaceDisallowed branch))) from rfl]
  rw [trimTrailing_cons_ne 'g' _ (by decide)]
  simp

/-- Bash trailing trim keeps a non-dash head. -/
theorem bashTrimOneTrailing_head (c : Char) (t : List Char) (hc : c ≠ '-') :
    (bashTrimOneTrailing (c :: t)).head? = some c := by
  rw [bashTrimOneTrailing, List.reverse_cons]
  cases hr : t.reverse with
  | nil =>
    simp [bashTrimOneLeading, hc]
  | cons d dr =>
    rw [List.cons_append, bashTrimOneLeading]
    by_cases hd : (d == '-') = true
    · rw [if_pos hd, List.head?_reverse]
      simp
    · rw [if_neg hd, List.head?_reverse]
      rw [show d :: (dr ++ [c]) = (d :: dr) ++ [c] from (List.cons_append d dr [c]).symm]
      rw [List.getLast?_append_of_ne_nil _ (by simp : ([c] : List Char) ≠ [])]
      simp

/-- The bash-derived name before suffixing always starts with the
prefix letter. -/
theorem bash_base_head (branch : List Char) :
    (bashTrimOneTrailing (bashTrimOneLeading
      (bashCollapseOnce (sessionBase ++ replaceDisallowed branch)))).head? = some 'g' := by
  have h1 : bashCollapseOnce (sessionBase ++ replaceDisallowed branch) =
      'g' :: bashCollapseOnce ("cool-".data ++ replaceDisallowed branch) := by
    rw [show sessionBase ++ replaceDisallowed branch =
        'g' :: ("cool-".data ++ replaceDisallowed branch) from rfl]
    exact bashCollapseOnce_cons_ne _ _ (by decide)
  rw [h1, bashTrimOneLeading, if_neg (by decide)]
  exact bashTrimOneTrailing_head 'g' _ (by decide)

/-- The single bash pass only keeps characters or writes dashes. -/
theorem allAllowed_bashCollapseOnce :
    ∀ s, allAllowed s = true → allAllowed (bashCollapseOnce s) = true := by
  refine twoStepInduction (fun h => h) (fun c h => h) (fun c d rest ih1 ih2 h => ?_)
  rw [allAllowed, List.all_cons, List.all_cons, Bool.and_eq_true, Bool.and_eq_true] at h
  rw [bashCollapseOnce]
  by_cases hcd : (c == '-' && d == '-') = true
  · rw [if_pos hcd, allAllowed, List.all_cons, Bool.and_eq_true]
    exact ⟨by decide, ih1 h.2.2⟩
  · rw [if_neg hcd, allAllowed, List.all_cons, Bool.and_eq_true]
    refine ⟨h.1, ih2 ?_⟩
    rw [allAllowed, List.all_cons, Bool.and_eq_true]
    exact ⟨h.2.1, h.2.2⟩

/-- Removing one leading dash preserves the character check. -/
theorem allAllowed_bashTrimOneLeading (s : List Char) (h : allAllowed s = true) :
    allAllowed (bashTrimOneLeading s) = true := by
  cases s with
  | nil => exact h
  | cons c t =>
    rw [bashTrimOneLeading]
    by_cases hc : (c == '-') = true
    · rw [if_pos hc]
      exact allAllowed_sublist (List.sublist_cons_self c t) h
    · rw [if_neg hc]
      exact h

/-- Removing one trailing dash preserves the character check. -/
theorem allAllowed_bashTrimOneTrailing (s : List Char) (h : allAllowed s = true) :
    allAllowed (bashTrimOneTrailing s) = true := by
  rw [bashTrimOneTrailing, allAllowed_reverse]
  exact allAllowed_bashTrimOneLeading _ (by rwa [allAllowed_reverse])

/-- Sanitizing twice sanitizes once: the specification's sanitization is
idempotent. -/
theorem specSanitized_idem (branch : List Char) :
    specSanitizedBranch (specSanitizedBranch branch) = specSanitizedBranch branch := by
  have hall : allAllowed (specSanitizedBranch branch) = true := by
    rw [specSanitizedBranch, trimDashes]
    exact (allAllowed_trims _
      (allAllowed_trims _
        (allAllowed_collapseDashes _ (allAllowed_replaceDisallowed branch))).1).2
  have hnd : NoDD (specSanitizedBranch branch) := by
    rw [specSanitizedBranch, trimDashes]
    exact NoDD.trimTrailing (NoDD.dropWhile _ (noDD_collapseDashes _))
  have hhead : (specSanitizedBranch branch).head? ≠ some '-' := by
    rw [specSanitizedBranch, trimDashes]
    cases hX : trimLeadingDashes (collapseDashes (replaceDisallowed branch)) with
    | nil => simp [trimTrailingDashes]
    | cons c t =>
      have hc : c ≠ '-' := by
        have hd := head?_dropWhileDash (collapseDashes (replaceDisallowed branch))
        rw [show trimLeadingDashes (collapseDashes (replaceDisallowed branch)) =
            List.dropWhile (· == '-') (collapseDashes (replaceDisallowed branch))
          from rfl] at hX
        rw [hX] at hd
        simpa using hd
      rw [trimTrailing_cons_ne c t hc]
      simpa using hc
  have hlast : (specSanitizedBranch branch).getLast? ≠ some '-' := by
    rw [specSanitizedBranch, trimDashes]
    exact getLast?_trimTrailing _
  rw [specSanitizedBranch, replaceDisallowed_eq_self _ hall, collapseDashes_eq_self _ hnd,
    trimDashes, trimLeading_eq_self _ hhead, trimTrailing_eq_self _ hlast]

/-- The fish pre-suffix name never holds a double dash. -/
theorem fish_base_noDD (branch : List Char) :
    NoDD (trimDashes (collapseDashes (sessionBase ++ replaceDisallowed branch))) := by
  rw [trimDashes]
  exact NoDD.trimTrailing (NoDD.dropWhile _ (noDD_collapseDashes _))

/-- The fish pre-suffix name never ends in a dash. -/
theorem fish_base_last (branch : List Char) :
    (trimDashes (collapseDashes
      (sessionBase ++ replaceDisallowed branch))).getLast? ≠ some '-' := by
  rw [trimDashes]
  exact getLast?_trimTrailing _

/-! ### Theorems for the session-name claims -/

/-- C1 counterexample: the bash derivation does not fully collapse dash
runs, so at branch `a!!!b` it differs from the claimed formula. -/
theorem c1_counterexample :
    bashSessionName "a!!!b".data "false".data = "gcool-a--b".data ∧
    specDeriveName "a!!!b".data SessionKind.agent = "gcool-a-b".data ∧
    bashSessionName "a!!!b".data "false".data ≠
      specDeriveName "a!!!b".data SessionKind.agent := by
  decide

/-- C1 (amended): whenever the sanitized branch is nonempty, the fish
wrapper's derived name matches the claimed formula exactly — prefix,
replaced characters, collapsed runs, trimmed ends, `-terminal` suffix
for the Terminal kind — and on branch `Fix/Bug #42!` with the Agent
kind both wrappers produce `gcool-Fix-Bug-42`. -/
theorem c1_amended (branch t_only : List Char)
    (h : specSanitizedBranch branch ≠ []) :
    fishSessionName branch t_only = specDeriveName branch (kindOfFlag t_only) ∧
    bashSessionName "Fix/Bug #42!".data "false".data = "gcool-Fix-Bug-42".data ∧
    fishSessionName "Fix/Bug #42!".data "false".data = "gcool-Fix-Bug-42".data := by
  refine ⟨?_, by decide, by decide⟩
  have key := trimDashes_sessionBase branch h
  rw [fishSessionName_eq, key, specDeriveName, kindOfFlag]
  by_cases ht : t_only = "true".data
  · rw [if_pos ht, if_pos ht, if_pos rfl, List.append_assoc]
  · rw [if_neg ht, if_neg ht, if_neg (by simp), List.append_nil]

/-- Witness for C1 at a concrete branch with nonempty sanitization. -/
theorem c1_witness :
    specSanitizedBranch "feature/x".data ≠ [] ∧
    fishSessionName "feature/x".data "false".data =
      specDeriveName "feature/x".data (kindOfFlag "false".data) :=
  ⟨by decide, (c1_amended "feature/x".data "false".data (by decide)).1⟩

/-- C2 counterexample: the bash derivation can leave two consecutive
dashes, and the bash sanitization is not idempotent. -/
theorem c2_counterexample :
    bashSessionName "a!!!b".data "false".data = "gcool-a--b".data ∧
    noDoubleDash (bashSessionName "a!!!b".data "false".data) = false ∧
    bashSessionName "x!!!".data "false".data = "gcool-x-".data := by
  decide

/-- C2 (amended): the derivation is a pure function of `(branch, kind)`
for both wrappers; every output character of either wrapper lies in the
allowed class; both outputs start with the prefix letter (so never with
a separator); the fish output additionally never holds a double dash
and never ends in a dash, and the sanitization itself is idempotent.
The bash output can retain doubled or trailing dashes. -/
theorem c2_amended (branch t_only : List Char) :
    allAllowed (bashSessionName branch t_only) = true ∧
    allAllowed (fishSessionName branch t_only) = true ∧
    (bashSessionName branch t_only).head? = some 'g' ∧
    (fishSessionName branch t_only).head? = some 'g' ∧
    noDoubleDash (fishSessionName branch t_only) = true ∧
    (fishSessionName branch t_only).getLast? ≠ some '-' ∧
    specSanitizedBranch (specSanitizedBranch branch) = specSanitizedBranch branch := by
  have hs1 : allAllowed (sessionBase ++ replaceDisallowed branch) = true := by
    rw [allAllowed, List.all_append, Bool.and_eq_true]
    exact ⟨by decide, allAllowed_replaceDisallowed branch⟩
  have hbash : allAllowed (bashTrimOneTrailing (bashTrimOneLeading
      (bashCollapseOnce (sessionBase ++ replaceDisallowed branch)))) = true :=
    allAllowed_bashTrimOneTrailing _
      (allAllowed_bashTrimOneLeading _ (allAllowed_bashCollapseOnce _ hs1))
  have hfish : allAllowed (trimDashes
      (collapseDashes (sessionBase ++ replaceDisallowed branch))) = true := by
    rw [trimDashes]
    exact (allAllowed_trims _
      (allAllowed_trims _ (allAllowed_collapseDashes _ hs1)).1).2
  refine ⟨?_, ?_, ?_, ?_, ?_, ?_, specSanitized_idem branch⟩
  · rw [bashSessionName_eq]
    by_cases ht : t_only = "true".data
    · rw [if_pos ht, allAllowed, List.all_append, Bool.and_eq_true]
      exact ⟨hbash, by decide⟩
    · rw [if_neg ht]
      exact hbash
  · rw [fishSessionName_eq]
    by_cases ht : t_only = "true".data
    · rw [if_pos ht, allAllowed, List.all_append, Bool.and_eq_true]
      exact ⟨hfish, by decide⟩
    · rw [if_neg ht]
      exact hfish
  · rw [bashSessionName_eq]
    by_cases ht : t_only = "true".data
    · rw [if_pos ht]
      exact head?_append_of_some _ (bash_base_head branch)
    · rw [if_neg ht]
      exact bash_base_head branch
  · rw [fishSessionName_eq]
    by_cases ht : t_only = "true".data
    · rw [if_pos ht]
      exact head?_append_of_some _ (fish_base_head branch)
    · rw [if_neg ht]
      exact fish_base_head branch
  · rw [noDoubleDash_iff, fishSessionName_eq]
    by_cases ht : t_only = "true".data
    · rw [if_pos ht]
      refine List.chain'_append.mpr
        ⟨fish_base_noDD branch, (noDoubleDash_iff _).mp (by decide), ?_⟩
      intro x hx y hy
      rintro ⟨hxd, -⟩
      rw [hxd] at hx
      exact fish_base_last branch hx
    · rw [if_neg ht]
      exact fish_base_noDD branch
  · rw [fishSessionName_eq]
    by_cases ht : t_only = "true".data
    · rw [if_pos ht, List.getLast?_append_of_ne_nil _ (by decide)]
      decide
    · rw [if_neg ht]
      exact fish_base_last branch

/-- C6 counterexample: the wrappers disagree on branch `a!!!b`. -/
theorem c6_counterexample :
    bashSessionName "a!!!b".data "false".data = "gcool-a--b".data ∧
    fishSessionName "a!!!b".data "false".data = "gcool-a-b".data ∧
    bashSessionName "a!!!b".data "false".data ≠
      fishSessionName "a!!!b".data "false".data := by
  decide

/-- C6 (amended): the bash and fish wrappers derive the same session
name — same replacement, same collapsing, same trimming, same
`-terminal` suffixing — for every `terminal_only` flag and every branch
whose prefixed character-replaced form holds no run of three dashes. -/
theorem c6_amended (branch t_only : List Char)
    (h : noTripleDash (sessionBase ++ replaceDisallowed branch) = true) :
    bashSessionName branch t_only = fishSessionName branch t_only := by
  have hnd : NoDD (collapseDashes (sessionBase ++ replaceDisallowed branch)) :=
    noDD_collapseDashes _
  rw [bashSessionName_eq, fishSessionName_eq,
    bashCollapseOnce_eq_collapseDashes _ h,
    bashTrimOneLeading_eq _ hnd,
    bashTrimOneTrailing_eq
      (trimLeadingDashes (collapseDashes (sessionBase ++ replaceDisallowed branch)))
      (NoDD.dropWhile _ hnd)]
  simp only [trimDashes]

/-- Witness for C6 at the specification's scenario branch, with the
Terminal kind. -/
theorem c6_witness :
    noTripleDash (sessionBase ++ replaceDisallowed "Fix/Bug #42!".data) = true ∧
    bashSessionName "Fix/Bug #42!".data "true".data =
      fishSessionName "Fix/Bug #42!".data "true".data :=
  ⟨by decide, c6_amended "Fix/Bug #42!".data "true".data (by decide)⟩

/-! ### Theorems for the configuration accessor -/

/-- C7: the auto-fetch interval accessor returns the stored value when
the repository is configured with a positive interval, and the default
of ten seconds when the repository is unknown or the stored value is
not positive. -/
theorem c7_auto_fetch_interval (cfg : Config) (repoPath : List Char) :
    (∀ repo, cfg.find repoPath = some repo → repo.auto_fetch_interval > 0 →
      GetAutoFetchInterval cfg repoPath = repo.auto_fetch_interval) ∧
    (∀ repo, cfg.find repoPath = some repo → ¬repo.auto_fetch_interval > 0 →
      GetAutoFetchInterval cfg repoPath = 10) ∧
    (cfg.find repoPath = none → GetAutoFetchInterval cfg repoPath = 10) := by
  refine ⟨fun repo hfind hpos => ?_, fun repo hfind hpos => ?_, fun hfind => ?_⟩
  · rw [GetAutoFetchInterval, hfind]
    exact if_pos hpos
  · rw [GetAutoFetchInterval, hfind]
    exact if_neg hpos
  · rw [GetAutoFetchInterval, hfind]

/-- Witness for C7: a configured positive interval of 30 is returned, a
stored zero and a missing repository both fall back to 10. -/
theorem c7_witness :
    GetAutoFetchInterval ⟨[("r".data, ⟨[], [], [], 30, []⟩)]⟩ "r".data = 30 ∧
    GetAutoFetchInterval ⟨[("r".data, ⟨[], [], [], 0, []⟩)]⟩ "r".data = 10 ∧
    GetAutoFetchInterval ⟨[]⟩ "r".data = 10 :=
  ⟨(c7_auto_fetch_interval ⟨[("r".data, ⟨[], [], [], 30, []⟩)]⟩ "r".data).1
      ⟨[], [], [], 30, []⟩ (by decide) (by decide),
   (c7_auto_fetch_interval ⟨[("r".data, ⟨[], [], [], 0, []⟩)]⟩ "r".data).2.1
      ⟨[], [], [], 0, []⟩ (by decide) (by decide),
   (c7_auto_fetch_interval ⟨[]⟩ "r".data).2.2 (by decide)⟩

end JeanTui
